import Mathlib

/-!
Shallow embedding of `src/app.py` (a small Flask Q&A application serving
devotional passages).  Strings are modelled as `List Char`; the ASCII
fragments of Python's `str.lower` and of the regex class `\w` are modelled
explicitly, since every literal occurring in the program and in the test
properties is ASCII.  Fallible Python code (dictionary indexing,
attribute errors on malformed request bodies) is modelled with `Except`.
-/

namespace PrabhupadaApp

/-- Model of the regex character class `\w` used in
`re.findall(r"\w+", query.lower())` (src/app.py line 56), restricted to
ASCII: digits, latin letters, underscore. -/
def isWordChar (c : Char) : Bool :=
  decide ((48 ≤ c.toNat ∧ c.toNat ≤ 57) ∨ (65 ≤ c.toNat ∧ c.toNat ≤ 90) ∨
    (97 ≤ c.toNat ∧ c.toNat ≤ 122) ∨ c = '_')

/-- Model of Python `str.lower` on a single character, restricted to ASCII:
uppercase latin letters are shifted down by 32, all else is unchanged. -/
def pyLower (c : Char) : Char :=
  if 65 ≤ c.toNat ∧ c.toNat ≤ 90 then Char.ofNat (c.toNat + 32) else c

/-- Accumulator-style scanner extracting the maximal runs of word
characters, embedding `re.findall(r"\w+", ...)`.  The accumulator holds the
current run in reverse. -/
def tokenizeAux : List Char → List Char → List (List Char)
  | [], acc => if acc = [] then [] else [acc.reverse]
  | c :: rest, acc =>
    if isWordChar c then tokenizeAux rest (c :: acc)
    else if acc = [] then tokenizeAux rest []
    else acc.reverse :: tokenizeAux rest []

/-- Embedding of `re.findall(r"\w+", query.lower())` (src/app.py line 56). -/
def tokens (q : List Char) : List (List Char) :=
  tokenizeAux (q.map pyLower) []

/-- Whether the first list is an initial segment of the second. -/
def startsWith : List Char → List Char → Bool
  | [], _ => true
  | _ :: _, [] => false
  | a :: as, b :: bs => a == b && startsWith as bs

/-- Greedy left-to-right scanner counting non-overlapping occurrences of a
(nonempty) pattern `w`.  The counter `k` records how many characters are
still to be skipped after a match, making the recursion structural on the
text. -/
def countFrom (w : List Char) : List Char → Nat → Nat
  | [], _ => 0
  | _ :: rest, Nat.succ k => countFrom w rest k
  | c :: rest, 0 =>
    if startsWith w (c :: rest) then 1 + countFrom w rest (w.length - 1)
    else countFrom w rest 0

/-- Embedding of Python `text.count(word)` (src/app.py line 63): the number
of non-overlapping occurrences of `w` in `text`, scanned greedily left to
right.  Python returns `len(text) + 1` for the empty pattern. -/
def countOcc (w text : List Char) : Nat :=
  if w = [] then text.length + 1 else countFrom w text 0

/-- Model of one dataset record (src/app.py lines 25-29).  Each of the six
documented fields may be absent, reflecting that the JSON objects carry no
schema validation; `none` models an absent key. -/
structure Record where
  book : Option (List Char)
  chapter : Option (List Char)
  verse : Option (List Char)
  translation : Option (List Char)
  purport : Option (List Char)
  author : Option (List Char)
deriving DecidableEq, Repr

/-- Embedding of the comparison text
`f"{rec.get('translation', '')} {rec.get('purport', '')}".lower()`
(src/app.py line 62): the space-joined concatenation of the two fields
(absent fields defaulting to empty), lowercased. -/
def comparisonText (r : Record) : List Char :=
  ((r.translation.getD []) ++ ' ' :: (r.purport.getD [])).map pyLower

/-- Embedding of `sum(text.count(word) for word in words)`
(src/app.py line 63). -/
def score (ws : List (List Char)) (r : Record) : Nat :=
  (ws.map fun w => countOcc w (comparisonText r)).sum

/-- One iteration of the scan loop of `search_passage`
(src/app.py lines 61-66): the accumulator is `(best_score, best_record)`
and is replaced exactly when the record scores strictly higher. -/
def searchStep (ws : List (List Char)) (acc : Nat × Option Record)
    (rec : Record) : Nat × Option Record :=
  if acc.1 < score ws rec then (score ws rec, some rec) else acc

/-- Embedding of `search_passage` (src/app.py lines 38-67), with the
module-level dataset passed explicitly. -/
def search_passage (data : List Record) (query : List Char) : Option Record :=
  if tokens query = [] then none
  else (data.foldl (searchStep (tokens query)) (0, none)).2

/-- Embedding of the startup loader (src/app.py lines 30-35): opening and
parsing the dataset file may raise `FileNotFoundError`, modelled by `none`;
that exception is caught and yields the empty list, and a present file
yields its parsed record list. -/
def loadData (fileContents : Option (List Record)) : List Record :=
  match fileContents with
  | none => []
  | some records => records

/-- Model of a parsed JSON value, as delivered by `request.get_json`.
Numbers are modelled by integers, which is all the claims need. -/
inductive Json where
  | null : Json
  | bool (b : Bool) : Json
  | num (n : Int) : Json
  | str (s : List Char) : Json
  | arr (xs : List Json) : Json
  | obj (kvs : List (List Char × Json)) : Json

/-- Python truthiness of a parsed JSON value, used by `... or {}`
(src/app.py line 85). -/
def jsonTruthy : Json → Bool
  | Json.null => false
  | Json.bool b => b
  | Json.num n => decide (n ≠ 0)
  | Json.str s => !s.isEmpty
  | Json.arr xs => !xs.isEmpty
  | Json.obj kvs => !kvs.isEmpty

/-- Embedding of `dict.get(key, default)` on a parsed JSON object. -/
def lookupD (kvs : List (List Char × Json)) (k : List Char) (d : Json) : Json :=
  match kvs with
  | [] => d
  | (k₂, v) :: rest => if k₂ = k then v else lookupD rest k d

/-- The characters removed by Python `str.strip()`:
space, tab, newline, carriage return, vertical tab, form feed. -/
def isPySpace (c : Char) : Bool :=
  c = ' ' || c = '\t' || c = '\n' || c = '\r' || c.toNat = 11 || c.toNat = 12

/-- Embedding of Python `str.strip()` (src/app.py line 86). -/
def pyStrip (s : List Char) : List Char :=
  ((s.dropWhile isPySpace).reverse.dropWhile isPySpace).reverse

/-- Python truthiness of a record dictionary, as tested by `if record:`
(src/app.py line 88): a dictionary is truthy exactly when it is nonempty,
which for the six modelled keys means some field is present. -/
def recordTruthy (r : Record) : Bool :=
  r.book.isSome || r.chapter.isSome || r.verse.isSome ||
    r.translation.isSome || r.purport.isSome || r.author.isSome

/-- Error value modelling a Python `KeyError`. -/
def keyError : List Char := "KeyError".data

/-- Error value modelling the `AttributeError` raised by `data.get` when the
parsed body is not a dictionary (src/app.py line 86). -/
def attrErrGet : List Char := "AttributeError: get".data

/-- Error value modelling the `AttributeError` raised by `.strip()` when the
question value is not a string (src/app.py line 86). -/
def attrErrStrip : List Char := "AttributeError: strip".data

/-- Embedding of the answer construction on a match (src/app.py lines
89-95).  Python indexes the six fields directly with `record[...]`, which
raises `KeyError` when a field is absent. -/
def formatAnswer (r : Record) : Except (List Char) (List Char) :=
  match r.translation, r.purport, r.book, r.chapter, r.verse, r.author with
  | some t, some p, some b, some c, some v, some a =>
    Except.ok (t ++ "\n\n".data ++ p ++ "\n\n".data ++ "(".data ++ b ++
      ", Chapter ".data ++ c ++ ", Verse ".data ++ v ++ ") – ".data ++ a ++
      ". Chant Hare Krishna and be happy.".data)
  | _, _, _, _, _, _ => Except.error keyError

deriving instance DecidableEq for Except

/-- The fixed apology answer (src/app.py line 97). -/
def apology : List Char :=
  "This information is not available in the provided texts. Chant Hare Krishna and be happy.".data

/-- The request body key read by the handler. -/
def questionKey : List Char := "question".data

/-- Embedding of the `/ask` handler (src/app.py lines 76-98), with the
module-level dataset passed explicitly.  The body is `none` when
`request.get_json(silent=True)` returns `None` (missing or unparsable
JSON); a falsy parsed body is replaced by the empty dictionary by
`... or {}`. -/
def ask (dataset : List Record) (body : Option Json) :
    Except (List Char) (List Char) :=
  let data := match body with
    | none => Json.obj []
    | some j => if jsonTruthy j then j else Json.obj []
  match data with
  | Json.obj kvs =>
    match lookupD kvs questionKey (Json.str []) with
    | Json.str s =>
      match search_passage dataset (pyStrip s) with
      | some rec => if recordTruthy rec then formatAnswer rec else Except.ok apology
      | none => Except.ok apology
    | _ => Except.error attrErrStrip
  | _ => Except.error attrErrGet

/-- Convenience constructor for a record with all six fields present. -/
def mkRecord (b c v t p a : String) : Record :=
  ⟨some b.data, some c.data, some v.data, some t.data, some p.data, some a.data⟩

/-- The worked example record of the specification (section 8). -/
def recBG : Record :=
  mkRecord "BG" "2" "47" "Perform your duty" "Duty is dharma" "Prabhupada"

/-- A record whose combined text contains the word yoga once. -/
def recYogaA : Record := mkRecord "BG" "6" "1" "On yoga" "" "Prabhupada"

/-- A record whose combined text contains the word yoga twice. -/
def recYogaB : Record :=
  mkRecord "BG" "6" "2" "The yoga of yoga" "" "Prabhupada"

/-- A second record whose combined text contains the word yoga once. -/
def recYogaC : Record := mkRecord "BG" "6" "3" "More yoga here" "" "Prabhupada"

/-- A record whose translation contains the word dharma three times. -/
def recDharma : Record :=
  mkRecord "BG" "1" "1" "dharma dharma dharma" "" "Prabhupada"

/-- A record lacking the author field. -/
def recNoAuthor : Record :=
  ⟨some "BG".data, some "2".data, some "47".data,
    some "Perform your duty".data, some "Duty is dharma".data, none⟩

/-- The record with its translation and purport fields exchanged. -/
def swapFields (r : Record) : Record :=
  { r with translation := r.purport, purport := r.translation }

/-! Helper lemmas about the tokenizer. -/

lemma tokenizeAux_sound (l : List Char) :
    ∀ acc, (∀ c ∈ acc, isWordChar c = true) →
      ∀ w ∈ tokenizeAux l acc, w ≠ [] ∧ ∀ c ∈ w, isWordChar c = true := by
  induction l with
  | nil =>
    intro acc hacc w hw
    by_cases h : acc = []
    · simp [tokenizeAux, h] at hw
    · simp [tokenizeAux, h] at hw
      subst hw
      refine ⟨by simpa using h, ?_⟩
      intro c hc
      exact hacc c (List.mem_reverse.mp hc)
  | cons c rest ih =>
    intro acc hacc w hw
    by_cases hc : isWordChar c = true
    · rw [tokenizeAux, if_pos hc] at hw
      refine ih (c :: acc) ?_ w hw
      intro d hd
      rcases List.mem_cons.mp hd with h | h
      · exact h ▸ hc
      · exact hacc d h
    · rw [tokenizeAux, if_neg hc] at hw
      by_cases ha : acc = []
      · rw [if_pos ha] at hw
        exact ih [] (by simp) w hw
      · rw [if_neg ha] at hw
        rcases List.mem_cons.mp hw with h | h
        · subst h
          refine ⟨by simpa using ha, ?_⟩
          intro d hd
          exact hacc d (List.mem_reverse.mp hd)
        · exact ih [] (by simp) w h

lemma tokens_sound (q : List Char) :
    ∀ w ∈ tokens q, w ≠ [] ∧ ∀ c ∈ w, isWordChar c = true := by
  intro w hw
  exact tokenizeAux_sound (q.map pyLower) [] (by simp) w hw

lemma space_not_mem_of_sound (w : List Char)
    (h : ∀ c ∈ w, isWordChar c = true) : ' ' ∉ w := by
  intro hmem
  have := h ' ' hmem
  simp [isWordChar] at this

lemma pyLower_eq_of_not_word (c : Char) (h : isWordChar c = false) :
    pyLower c = c := by
  have hrange : ¬ (65 ≤ c.toNat ∧ c.toNat ≤ 90) := by
    intro hr
    simp [isWordChar, hr] at h
  simp [pyLower, hrange]

lemma isWordChar_pyLower_false (c : Char) (h : isWordChar c = false) :
    isWordChar (pyLower c) = false := by
  rw [pyLower_eq_of_not_word c h]
  exact h

lemma tokenizeAux_nil_of_no_word (l : List Char)
    (h : ∀ c ∈ l, isWordChar c = false) : tokenizeAux l [] = [] := by
  induction l with
  | nil => simp [tokenizeAux]
  | cons c rest ih =>
    have hc : isWordChar c = false := h c (by simp)
    rw [tokenizeAux, if_neg (by simp [hc]), if_pos rfl]
    exact ih fun d hd => h d (List.mem_cons_of_mem c hd)

lemma tokens_eq_nil_of_no_word (q : List Char)
    (h : ∀ c ∈ q, isWordChar c = false) : tokens q = [] := by
  refine tokenizeAux_nil_of_no_word _ ?_
  intro c hc
  rcases List.mem_map.mp hc with ⟨d, hd, rfl⟩
  exact isWordChar_pyLower_false d (h d hd)

/-! Helper lemmas about the substring counter. -/

lemma startsWith_length_le (w t : List Char) (h : startsWith w t = true) :
    w.length ≤ t.length := by
  induction w generalizing t with
  | nil => simp
  | cons a as ih =>
    cases t with
    | nil => simp [startsWith] at h
    | cons b bs =>
      simp only [startsWith, Bool.and_eq_true] at h
      simpa using ih bs h.2

lemma startsWith_nil_right (w : List Char) (hw : w ≠ []) :
    startsWith w [] = false := by
  cases w with
  | nil => exact absurd rfl hw
  | cons a as => rfl

lemma startsWith_cons_cons (a b : Char) (as bs : List Char) :
    startsWith (a :: as) (b :: bs) = (a == b && startsWith as bs) := rfl

lemma startsWith_append_space (w : List Char) (hsp : ' ' ∉ w) :
    ∀ t p, startsWith w (t ++ ' ' :: p) = startsWith w t := by
  induction w with
  | nil => intro t p; cases t <;> rfl
  | cons a as ih =>
    intro t p
    cases t with
    | nil =>
      have ha : a ≠ ' ' := fun h => hsp (h ▸ List.mem_cons_self a as)
      rw [List.nil_append, startsWith_cons_cons,
        startsWith_nil_right (a :: as) (by simp)]
      simp [beq_iff_eq, ha]
    | cons b bs =>
      rw [List.cons_append, startsWith_cons_cons, startsWith_cons_cons,
        ih (fun h => hsp (List.mem_cons_of_mem a h)) bs p]

lemma countFrom_nil (w : List Char) (k : Nat) : countFrom w [] k = 0 := rfl

lemma countFrom_succ (w : List Char) (c : Char) (rest : List Char) (k : Nat) :
    countFrom w (c :: rest) (k + 1) = countFrom w rest k := rfl

lemma countFrom_zero (w : List Char) (c : Char) (rest : List Char) :
    countFrom w (c :: rest) 0 =
      if startsWith w (c :: rest) then 1 + countFrom w rest (w.length - 1)
      else countFrom w rest 0 := rfl

lemma countFrom_append (w : List Char) (hw : w ≠ []) (hsp : ' ' ∉ w)
    (p : List Char) :
    ∀ t k, k ≤ t.length →
      countFrom w (t ++ ' ' :: p) k = countFrom w t k + countFrom w p 0 := by
  intro t
  induction t with
  | nil =>
    intro k hk
    have hk₀ : k = 0 := by simpa using hk
    subst hk₀
    have hstart : startsWith w (' ' :: p) = false := by
      have h := startsWith_append_space w hsp [] p
      rw [List.nil_append] at h
      rw [h, startsWith_nil_right w hw]
    rw [List.nil_append, countFrom_zero, if_neg (by simp [hstart]),
      countFrom_nil, Nat.zero_add]
  | cons c ts ih =>
    intro k hk
    cases k with
    | succ j =>
      rw [List.cons_append, countFrom_succ, countFrom_succ]
      exact ih j (by simpa using hk)
    | zero =>
      have hb : startsWith w (c :: (ts ++ ' ' :: p)) = startsWith w (c :: ts) := by
        have h := startsWith_append_space w hsp (c :: ts) p
        rwa [List.cons_append] at h
      rw [List.cons_append, countFrom_zero, countFrom_zero, hb]
      by_cases hs : startsWith w (c :: ts) = true
      · have hlen : w.length - 1 ≤ ts.length := by
          have h := startsWith_length_le w (c :: ts) hs
          simp at h
          omega
        rw [if_pos hs, if_pos hs, ih (w.length - 1) hlen]
        omega
      · rw [if_neg hs, if_neg hs, ih 0 (Nat.zero_le _)]

lemma countOcc_split (w t p : List Char) (hw : w ≠ []) (hsp : ' ' ∉ w) :
    countOcc w (t ++ ' ' :: p) = countOcc w t + countOcc w p := by
  simp only [countOcc, if_neg hw]
  exact countFrom_append w hw hsp p t 0 (Nat.zero_le _)

/-! Helper lemmas about the scan loop of `search_passage`. -/

lemma foldl_searchStep_keep (ws : List (List Char)) :
    ∀ (l : List Record) (acc : Nat × Option Record),
      (∀ x ∈ l, score ws x ≤ acc.1) →
      List.foldl (searchStep ws) acc l = acc := by
  intro l
  induction l with
  | nil => intro acc _; rfl
  | cons r rest ih =>
    intro acc h
    have hr : score ws r ≤ acc.1 := h r (by simp)
    have hstep : searchStep ws acc r = acc := by
      rw [searchStep, if_neg (by omega)]
    rw [List.foldl_cons, hstep]
    exact ih acc fun x hx => h x (List.mem_cons_of_mem r hx)

lemma foldl_searchStep_fst_lt (ws : List (List Char)) (S : Nat) :
    ∀ (l : List Record) (acc : Nat × Option Record),
      acc.1 < S → (∀ x ∈ l, score ws x < S) →
      (List.foldl (searchStep ws) acc l).1 < S := by
  intro l
  induction l with
  | nil => intro acc hacc _; exact hacc
  | cons r rest ih =>
    intro acc hacc h
    rw [List.foldl_cons]
    refine ih (searchStep ws acc r) ?_ fun x hx => h x (List.mem_cons_of_mem r hx)
    rw [searchStep]
    by_cases hc : acc.1 < score ws r
    · rw [if_pos hc]; exact h r (by simp)
    · rw [if_neg hc]; exact hacc

lemma foldl_searchStep_some (ws : List (List Char)) :
    ∀ (l : List Record) (acc : Nat × Option Record),
      (∀ r, acc.2 = some r → acc.1 = score ws r ∧ 1 ≤ acc.1) →
      ∀ r, (List.foldl (searchStep ws) acc l).2 = some r →
        (List.foldl (searchStep ws) acc l).1 = score ws r ∧
          1 ≤ (List.foldl (searchStep ws) acc l).1 := by
  intro l
  induction l with
  | nil => intro acc hacc r hr; exact hacc r hr
  | cons x rest ih =>
    intro acc hacc r
    rw [List.foldl_cons]
    refine ih (searchStep ws acc x) ?_ r
    intro r₂ hr₂
    rw [searchStep] at hr₂ ⊢
    by_cases hc : acc.1 < score ws x
    · rw [if_pos hc] at hr₂ ⊢
      simp only at hr₂
      cases hr₂
      exact ⟨rfl, by omega⟩
    · rw [if_neg hc] at hr₂ ⊢
      exact hacc r₂ hr₂

/-- The record held after scanning the first maximal-score record is never
dethroned: the scan returns the earliest record whose score strictly
exceeds everything before it and is not exceeded after it. -/
lemma search_passage_first_max_aux (q : List Char) (l₁ l₂ : List Record)
    (r : Record)
    (h1 : ∀ x ∈ l₁, score (tokens q) x < score (tokens q) r)
    (h2 : ∀ x ∈ l₂, score (tokens q) x ≤ score (tokens q) r)
    (h3 : 0 < score (tokens q) r) :
    search_passage (l₁ ++ r :: l₂) q = some r := by
  have htok : tokens q ≠ [] := by
    intro h
    rw [score, h] at h3
    simp at h3
  rw [search_passage, if_neg htok, List.foldl_append, List.foldl_cons]
  have hfst : (List.foldl (searchStep (tokens q)) (0, none) l₁).1 <
      score (tokens q) r :=
    foldl_searchStep_fst_lt (tokens q) (score (tokens q) r) l₁ (0, none) h3 h1
  have hstep : searchStep (tokens q)
      (List.foldl (searchStep (tokens q)) (0, none) l₁) r =
      (score (tokens q) r, some r) := by
    rw [searchStep, if_pos hfst]
  rw [hstep, foldl_searchStep_keep (tokens q) l₂ (score (tokens q) r, some r) h2]

lemma search_passage_nil_data (q : List Char) : search_passage [] q = none := by
  rw [search_passage]
  by_cases h : tokens q = []
  · rw [if_pos h]
  · rw [if_neg h]; rfl

lemma search_passage_of_tokens_nil (data : List Record) (q : List Char)
    (h : tokens q = []) : search_passage data q = none := by
  rw [search_passage, if_pos h]

lemma search_passage_of_all_zero (data : List Record) (q : List Char)
    (h : ∀ r ∈ data, score (tokens q) r = 0) : search_passage data q = none := by
  rw [search_passage]
  by_cases htok : tokens q = []
  · rw [if_pos htok]
  · rw [if_neg htok,
      foldl_searchStep_keep (tokens q) data (0, none) fun x hx => by
        rw [h x hx]]

lemma sum_map_pos {α : Type} (f : α → Nat) :
    ∀ l : List α, 0 < (l.map f).sum → ∃ x ∈ l, 0 < f x := by
  intro l
  induction l with
  | nil => intro h; simp at h
  | cons a rest ih =>
    intro h
    rw [List.map_cons, List.sum_cons] at h
    by_cases ha : 0 < f a
    · exact ⟨a, by simp, ha⟩
    · have : 0 < (rest.map f).sum := by omega
      rcases ih this with ⟨x, hx, hfx⟩
      exact ⟨x, List.mem_cons_of_mem a hx, hfx⟩

lemma mem_dropWhile {α : Type} (p : α → Bool) :
    ∀ (l : List α) (x : α), x ∈ l.dropWhile p → x ∈ l := by
  intro l
  induction l with
  | nil => intro x hx; simp at hx
  | cons a rest ih =>
    intro x hx
    rw [List.dropWhile_cons] at hx
    by_cases hpa : p a = true
    · rw [if_pos hpa] at hx
      exact List.mem_cons_of_mem a (ih x hx)
    · rw [if_neg hpa] at hx
      exact hx

lemma mem_pyStrip (s : List Char) (c : Char) (h : c ∈ pyStrip s) : c ∈ s := by
  rw [pyStrip] at h
  rw [List.mem_reverse] at h
  have h₂ := mem_dropWhile isPySpace _ c h
  rw [List.mem_reverse] at h₂
  exact mem_dropWhile isPySpace s c h₂

lemma mem_take_idx {α : Type} :
    ∀ (l : List α) (n : Nat) (x : α), x ∈ l.take n →
      ∃ j : Fin l.length, j.1 < n ∧ l.get j = x := by
  intro l
  induction l with
  | nil => intro n x hx; simp at hx
  | cons a as ih =>
    intro n x hx
    cases n with
    | zero => simp at hx
    | succ m =>
      rw [List.take_succ_cons] at hx
      rcases List.mem_cons.mp hx with h | h
      · refine ⟨⟨0, by simp⟩, ?_, h.symm⟩
        show 0 < m + 1
        omega
      · rcases ih m x h with ⟨j, hj, hget⟩
        have hj2 := j.2
        refine ⟨⟨j.1 + 1, by simp only [List.length_cons]; omega⟩, ?_, ?_⟩
        · show j.1 + 1 < m + 1
          omega
        · exact hget

lemma mem_drop_idx {α : Type} :
    ∀ (l : List α) (n : Nat) (x : α), x ∈ l.drop n →
      ∃ j : Fin l.length, n ≤ j.1 ∧ l.get j = x := by
  intro l
  induction l with
  | nil => intro n x hx; simp at hx
  | cons a as ih =>
    intro n x hx
    cases n with
    | zero =>
      rw [List.drop_zero] at hx
      rcases List.mem_iff_get.mp hx with ⟨j, hj⟩
      exact ⟨j, Nat.zero_le _, hj⟩
    | succ m =>
      rw [List.drop_succ_cons] at hx
      rcases ih m x hx with ⟨j, hj, hget⟩
      have hj2 := j.2
      refine ⟨⟨j.1 + 1, by simp only [List.length_cons]; omega⟩, ?_, ?_⟩
      · show m + 1 ≤ j.1 + 1
        omega
      · exact hget

/-- C1: search_passage scores each record as the sum over query tokens of
non-overlapping substring occurrences in the lowercased space-joined
translation and purport, returns a record scoring strictly above every
other record whenever one exists (and some record scores positively, as
the claim's own zero clause requires), and returns none when no record
scores above zero. -/
theorem search_passage_unique_max (data : List Record) (q : List Char) :
    (∀ i : Fin data.length, 0 < score (tokens q) (data.get i) →
        (∀ j : Fin data.length, j ≠ i →
          score (tokens q) (data.get j) < score (tokens q) (data.get i)) →
        search_passage data q = some (data.get i)) ∧
    ((∀ r ∈ data, score (tokens q) r = 0) → search_passage data q = none) := by
  constructor
  · intro i hpos hmax
    have hdecomp : data.take i.1 ++ data.get i :: data.drop (i.1 + 1) = data := by
      rw [List.get_eq_getElem, ← List.drop_eq_getElem_cons i.2,
        List.take_append_drop]
    have h1 : ∀ x ∈ data.take i.1,
        score (tokens q) x < score (tokens q) (data.get i) := by
      intro x hx
      rcases mem_take_idx data i.1 x hx with ⟨j, hj, rfl⟩
      exact hmax j (fun h => by rw [h] at hj; omega)
    have h2 : ∀ x ∈ data.drop (i.1 + 1),
        score (tokens q) x ≤ score (tokens q) (data.get i) := by
      intro x hx
      rcases mem_drop_idx data (i.1 + 1) x hx with ⟨j, hj, rfl⟩
      exact Nat.le_of_lt (hmax j (fun h => by rw [h] at hj; omega))
    calc search_passage data q
        = search_passage (data.take i.1 ++ data.get i :: data.drop (i.1 + 1)) q := by
          rw [hdecomp]
      _ = some (data.get i) :=
          search_passage_first_max_aux q _ _ _ h1 h2 hpos
  · exact search_passage_of_all_zero data q

/-- Witness for C1 at the specification's own example: with record A
containing the word yoga once and record B containing it twice, the query
yoga returns record B. -/
theorem search_passage_unique_max_witness :
    search_passage [recYogaA, recYogaB] "yoga".data = some recYogaB := by
  have h := (search_passage_unique_max [recYogaA, recYogaB] "yoga".data).1
    ⟨1, by decide⟩ (by decide) (by decide)
  exact h

/-- C4: when several records tie for the maximum, search_passage returns
the earliest of them in dataset order, because the running maximum starts
at zero with no holder and is replaced only on a strictly greater score;
the claim's own initialisation clause forces the maximum to be positive
for a record to be returned at all. -/
theorem search_passage_tie_earliest (data l₁ l₂ : List Record) (r : Record)
    (q : List Char) (hdata : data = l₁ ++ r :: l₂)
    (h1 : ∀ x ∈ l₁, score (tokens q) x < score (tokens q) r)
    (h2 : ∀ x ∈ l₂, score (tokens q) x ≤ score (tokens q) r)
    (h3 : 0 < score (tokens q) r) :
    search_passage data q = some r := by
  rw [hdata]
  exact search_passage_first_max_aux q l₁ l₂ r h1 h2 h3

/-- Witness for C4: two records scoring one each for the query yoga; the
earlier of the two is returned. -/
theorem search_passage_tie_earliest_witness :
    search_passage [recYogaA, recYogaC] "yoga".data = some recYogaA :=
  search_passage_tie_earliest [recYogaA, recYogaC] [] [recYogaC] recYogaA
    "yoga".data rfl (by simp) (by decide) (by decide)

/-- C5: a query with no word characters tokenizes to the empty list, so
search_passage returns none without consulting the dataset, and the /ask
answer for such a question is the fixed apology, whatever the dataset. -/
theorem search_no_word_chars (data : List Record) (s : List Char)
    (h : ∀ c ∈ s, isWordChar c = false) :
    search_passage data s = none ∧
    ask data (some (Json.obj [(questionKey, Json.str s)])) =
      Except.ok apology := by
  constructor
  · exact search_passage_of_tokens_nil data s (tokens_eq_nil_of_no_word s h)
  · have hstrip : ∀ c ∈ pyStrip s, isWordChar c = false :=
      fun c hc => h c (mem_pyStrip s c hc)
    have hsearch := search_passage_of_tokens_nil data (pyStrip s)
      (tokens_eq_nil_of_no_word _ hstrip)
    simp [ask, jsonTruthy, lookupD, hsearch]

/-- Witness for C5 at the punctuation-only query of the specification. -/
theorem search_no_word_chars_witness :
    search_passage [recBG] "???".data = none ∧
    ask [recBG] (some (Json.obj [(questionKey, Json.str "???".data)])) =
      Except.ok apology :=
  search_no_word_chars [recBG] "???".data (by decide)

/-- C6: a missing dataset file loads as the empty list without surfacing
an error, and thereafter every question, whatever its content, yields the
apology answer from /ask, as does a missing body. -/
theorem loader_missing_file :
    loadData none = [] ∧
    (∀ s : List Char,
      ask (loadData none) (some (Json.obj [(questionKey, Json.str s)])) =
        Except.ok apology) ∧
    ask (loadData none) none = Except.ok apology := by
  refine ⟨rfl, ?_, by decide⟩
  intro s
  have hsearch := search_passage_nil_data (pyStrip s)
  simp [ask, jsonTruthy, lookupD, loadData, hsearch]

/-- Auxiliary monotonicity fact for rescaled scores. -/
lemma mul_lt_mul_left_iff (k a b : Nat) (hk : 1 ≤ k) :
    k * a < k * b ↔ a < b := by
  constructor
  · intro h
    by_contra hab
    push_neg at hab
    have h₂ := Nat.mul_le_mul_left k hab
    omega
  · intro h
    have h₂ := Nat.mul_le_mul_left k h
    rw [Nat.mul_succ] at h₂
    omega

lemma score_replicate (k : Nat) (w : List Char) (r : Record) :
    score (List.replicate k w) r = k * score [w] r := by
  rw [score, score, List.map_replicate, List.sum_replicate, smul_eq_mul,
    List.map_cons, List.map_nil, List.sum_cons, List.sum_nil, Nat.add_zero]

lemma foldl_searchStep_replicate (k : Nat) (hk : 1 ≤ k) (w : List Char) :
    ∀ (l : List Record) (b : Nat) (o : Option Record),
      List.foldl (searchStep (List.replicate k w)) (k * b, o) l =
      (k * (List.foldl (searchStep [w]) (b, o) l).1,
        (List.foldl (searchStep [w]) (b, o) l).2) := by
  intro l
  induction l with
  | nil => intro b o; rfl
  | cons x rest ih =>
    intro b o
    rw [List.foldl_cons, List.foldl_cons]
    by_cases hc : b < score [w] x
    · have hc₂ : (k * b, o).1 < score (List.replicate k w) x := by
        rw [score_replicate]
        exact (mul_lt_mul_left_iff k b (score [w] x) hk).mpr hc
      have hstep : searchStep (List.replicate k w) (k * b, o) x =
          (k * score [w] x, some x) := by
        rw [searchStep, if_pos hc₂, score_replicate]
      have hstep₂ : searchStep [w] (b, o) x = (score [w] x, some x) := by
        rw [searchStep, if_pos hc]
      rw [hstep, hstep₂]
      exact ih (score [w] x) (some x)
    · have hc₂ : ¬ (k * b, o).1 < score (List.replicate k w) x := by
        rw [score_replicate]
        simp only
        rw [mul_lt_mul_left_iff k b (score [w] x) hk]
        exact hc
      have hstep : searchStep (List.replicate k w) (k * b, o) x = (k * b, o) := by
        rw [searchStep, if_neg hc₂]
      have hstep₂ : searchStep [w] (b, o) x = (b, o) := by
        rw [searchStep, if_neg hc]
      rw [hstep, hstep₂]
      exact ih b o

/-- C7: when the query tokenizes to one word repeated k times, every
record's score is k times its score for the single-word query, and the
returned record is unchanged. -/
theorem search_repeated_word (data : List Record) (q q₁ w : List Char)
    (k : Nat) (hk : 1 ≤ k) (hq : tokens q = List.replicate k w)
    (hq₁ : tokens q₁ = [w]) :
    (∀ r : Record, score (tokens q) r = k * score (tokens q₁) r) ∧
    search_passage data q = search_passage data q₁ := by
  constructor
  · intro r
    rw [hq, hq₁, score_replicate]
  · rw [search_passage, search_passage, hq, hq₁]
    have hne : List.replicate k w ≠ [] := by
      intro hcon
      have := congrArg List.length hcon
      simp at this
      omega
    rw [if_neg hne, if_neg (by simp : ¬ ([w] : List (List Char)) = [])]
    have hfold := foldl_searchStep_replicate k hk w data 0 none
    rw [Nat.mul_zero] at hfold
    rw [hfold]

/-- Witness for C7 at the specification's dharma example: the doubled
query returns the same record, with exactly doubled score. -/
theorem search_repeated_word_witness :
    search_passage [recDharma] "dharma dharma".data =
      search_passage [recDharma] "dharma".data ∧
    score (tokens "dharma dharma".data) recDharma =
      2 * score (tokens "dharma".data) recDharma := by
  have h := search_repeated_word [recDharma] "dharma dharma".data
    "dharma".data "dharma".data 2 (by omega) (by decide) (by decide)
  exact ⟨h.2, h.1 recDharma⟩

lemma pyLower_space : pyLower ' ' = ' ' := by decide

/-- C8: swapping the translation and purport fields leaves every record's
score unchanged: no query token can span the space at the joined boundary,
so the two fields contribute symmetrically. -/
theorem score_swap_fields (q : List Char) (r : Record) :
    score (tokens q) (swapFields r) = score (tokens q) r := by
  rw [score, score]
  refine congrArg List.sum (List.map_congr_left ?_)
  intro w hw
  obtain ⟨hwne, hwchars⟩ := tokens_sound q w hw
  have hsp := space_not_mem_of_sound w hwchars
  have htext : ∀ x y : Option (List Char),
      countOcc w (((x.getD []) ++ ' ' :: (y.getD [])).map pyLower) =
        countOcc w ((x.getD []).map pyLower) +
          countOcc w ((y.getD []).map pyLower) := by
    intro x y
    rw [List.map_append, List.map_cons, pyLower_space]
    exact countOcc_split w _ _ hwne hsp
  rw [comparisonText, comparisonText, swapFields]
  simp only
  rw [htext, htext, Nat.add_comm]

lemma opt_none_of_isSome_false {α : Type} (o : Option α)
    (h : o.isSome = false) : o = none := by
  cases o
  · rfl
  · simp at h

/-- C9: a record returned by search_passage always has score at least one,
some query token occurs in its comparison text, and the record is truthy
as a dictionary, so the handler's truthiness test coincides with a test
against none. -/
theorem search_some_score_pos (data : List Record) (q : List Char)
    (rec : Record) (h : search_passage data q = some rec) :
    1 ≤ score (tokens q) rec ∧
    (∃ w ∈ tokens q, 1 ≤ countOcc w (comparisonText rec)) ∧
    recordTruthy rec = true := by
  have htok : tokens q ≠ [] := by
    intro ht
    rw [search_passage_of_tokens_nil data q ht] at h
    exact Option.noConfusion h
  rw [search_passage, if_neg htok] at h
  have hinv := foldl_searchStep_some (tokens q) data (0, none)
    (fun r hr => Option.noConfusion hr) rec h
  have hscore : 1 ≤ score (tokens q) rec := by omega
  have hex : ∃ w ∈ tokens q, 0 < countOcc w (comparisonText rec) :=
    sum_map_pos _ (tokens q) (by rw [← score]; omega)
  refine ⟨hscore, hex, ?_⟩
  by_contra hft
  have hfalse : recordTruthy rec = false := by
    cases hb : recordTruthy rec
    · rfl
    · exact absurd hb hft
  rw [recordTruthy] at hfalse
  simp only [Bool.or_eq_false_iff] at hfalse
  obtain ⟨⟨⟨⟨⟨hfb, hfc⟩, hfv⟩, hft₂⟩, hfp⟩, hfa⟩ := hfalse
  obtain ⟨w, hw, hcount⟩ := hex
  obtain ⟨hwne, hwchars⟩ := tokens_sound q w hw
  have hsp : ' ' ∉ w := space_not_mem_of_sound w hwchars
  have htext : comparisonText rec = [' '] := by
    rw [comparisonText, opt_none_of_isSome_false _ hft₂,
      opt_none_of_isSome_false _ hfp]
    simp [pyLower_space]
  rw [htext] at hcount
  have hz : countOcc w [' '] = 0 := by
    rw [show ([' '] : List Char) = [] ++ ' ' :: [] from rfl,
      countOcc_split w [] [] hwne hsp, countOcc, if_neg hwne, countFrom_nil]
  omega

/-- Witness for C9 on a concrete match. -/
theorem search_some_score_pos_witness :
    1 ≤ score (tokens "duty".data) recBG ∧
    (∃ w ∈ tokens "duty".data, 1 ≤ countOcc w (comparisonText recBG)) ∧
    recordTruthy recBG = true :=
  search_some_score_pos [recBG] "duty".data recBG (by decide)

/-- C3: on a match whose record carries all six fields, the /ask answer is
exactly translation, blank line, purport, blank line, the parenthesized
citation, an en dash, the author and period, and the fixed closing
sentence; on no match it is exactly the apology sentence followed by the
same closing sentence. -/
theorem ask_answer_format (data : List Record) (s : List Char) :
    (∀ (rec : Record) (t p b c v a : List Char),
        search_passage data (pyStrip s) = some rec →
        rec.translation = some t → rec.purport = some p →
        rec.book = some b → rec.chapter = some c → rec.verse = some v →
        rec.author = some a →
        ask data (some (Json.obj [(questionKey, Json.str s)])) =
          Except.ok (t ++ "\n\n".data ++ p ++ "\n\n".data ++ "(".data ++ b ++
            ", Chapter ".data ++ c ++ ", Verse ".data ++ v ++ ") – ".data ++
            a ++ ". Chant Hare Krishna and be happy.".data)) ∧
    (search_passage data (pyStrip s) = none →
      ask data (some (Json.obj [(questionKey, Json.str s)])) =
        Except.ok apology) := by
  constructor
  · intro rec t p b c v a hsearch ht hp hb hc hv ha
    have htr : recordTruthy rec = true := by
      rw [recordTruthy, ht]
      simp
    have hfmt : formatAnswer rec = Except.ok (t ++ "\n\n".data ++ p ++
        "\n\n".data ++ "(".data ++ b ++ ", Chapter ".data ++ c ++
        ", Verse ".data ++ v ++ ") – ".data ++ a ++
        ". Chant Hare Krishna and be happy.".data) := by
      unfold formatAnswer
      rw [ht, hp, hb, hc, hv, ha]
    simp [ask, jsonTruthy, lookupD, hsearch, htr, hfmt]
  · intro hsearch
    simp [ask, jsonTruthy, lookupD, hsearch]

/-- Witness for C3 at the specification's worked example. -/
theorem ask_answer_format_witness :
    ask [recBG] (some (Json.obj [(questionKey, Json.str "duty".data)])) =
      Except.ok "Perform your duty\n\nDuty is dharma\n\n(BG, Chapter 2, Verse 47) – Prabhupada. Chant Hare Krishna and be happy.".data := by
  have h := (ask_answer_format [recBG] "duty".data).1 recBG
    "Perform your duty".data "Duty is dharma".data "BG".data "2".data
    "47".data "Prabhupada".data (by decide) rfl rfl rfl rfl rfl rfl
  rw [h]
  decide

/-- C2 as amended: absent fields default to empty strings only in the
matcher's scoring; the response formatter indexes the six fields directly
and fails with a key error when a matched record lacks one of them. -/
theorem fields_default_in_scoring_only (ws : List (List Char)) (r : Record) :
    score ws { r with translation := some (r.translation.getD []),
                      purport := some (r.purport.getD []) } = score ws r ∧
    ((r.translation = none ∨ r.purport = none ∨ r.book = none ∨
        r.chapter = none ∨ r.verse = none ∨ r.author = none) →
      formatAnswer r = Except.error keyError) := by
  constructor
  · rw [score, score]
    have htext : comparisonText { r with
        translation := some (r.translation.getD []),
        purport := some (r.purport.getD []) } = comparisonText r := by
      rw [comparisonText, comparisonText]
      simp
    rw [htext]
  · intro h
    rcases r with ⟨b, c, v, t, p, a⟩
    cases t <;> cases p <;> cases b <;> cases c <;> cases v <;> cases a <;>
      simp_all [formatAnswer]

/-- Counterexample to C2 as stated: a matched record lacking the author
field does not yield an answer with that part empty; the handler fails
with a key error. -/
theorem missing_field_breaks_ask :
    ask [recNoAuthor] (some (Json.obj [(questionKey, Json.str "duty".data)])) =
      Except.error keyError := by decide

/-- Witness for the amended C2 at a record lacking its author field. -/
theorem fields_default_in_scoring_only_witness :
    score ["duty".data] { recNoAuthor with
      translation := some (recNoAuthor.translation.getD []),
      purport := some (recNoAuthor.purport.getD []) } =
        score ["duty".data] recNoAuthor ∧
    formatAnswer recNoAuthor = Except.error keyError := by
  have h := fields_default_in_scoring_only ["duty".data] recNoAuthor
  exact ⟨h.1, h.2 (Or.inr (Or.inr (Or.inr (Or.inr (Or.inr rfl)))))⟩

/-- C10: the handler tolerates only a missing or unparsable body, treated
as an empty question; a well-formed JSON array body, or an object whose
question value is a number, makes the handler fail with an exception
instead of returning the apology. -/
theorem ask_body_tolerance (dataset : List Record) :
    ask dataset none = Except.ok apology ∧
    ask dataset (some (Json.arr [Json.num 1])) = Except.error attrErrGet ∧
    ask dataset (some (Json.obj [(questionKey, Json.num 7)])) =
      Except.error attrErrStrip := by
  refine ⟨?_, ?_, ?_⟩
  · have hsearch := search_passage_of_tokens_nil dataset (pyStrip [])
      (by decide)
    simp [ask, lookupD, hsearch]
  · simp [ask, jsonTruthy]
  · simp [ask, jsonTruthy, lookupD]

end PrabhupadaApp
